import Mathlib

/-!
Shallow embedding of the Rcpp numeric kernels in `src/C++/` (cumulative
max/min/product/sum, lagged differences, range, variance), together with
theorems checking the specification's claims about them.

Numeric values of a `NumericVector` are modelled as `Option ℚ`: `some q` is a
concrete double and `none` is the missing sentinel `NA_REAL`.  `NA_REAL` is a
NaN payload, so ordinary arithmetic on it propagates the sentinel and every
ordered comparison against it is false; the operation tables below mirror that.
Out-of-bounds vector reads and `stop(...)` calls surface as an explicit error
value of type `Err`.
-/

/-- A `NumericVector` entry: `some q` is a number, `none` is `NA_REAL`. -/
abbrev RVal := Option ℚ

/-- Failure channel of a kernel call: `oobRead` is an out-of-bounds element
access (undefined behaviour in the C++ source), `emptyInput` and
`invalidArgument` are the two `stop(...)` messages, `negativeLength` is the
host error thrown when a vector is allocated with a negative length. -/
inductive Err where
  | oobRead
  | emptyInput
  | invalidArgument
  | negativeLength
deriving DecidableEq, Repr

/-- `+` on doubles with NaN (`NA_REAL`) propagation. -/
def radd : RVal → RVal → RVal
  | some a, some b => some (a + b)
  | _, _ => none

/-- `-` on doubles with NaN (`NA_REAL`) propagation. -/
def rsub : RVal → RVal → RVal
  | some a, some b => some (a - b)
  | _, _ => none

/-- `*` on doubles with NaN (`NA_REAL`) propagation. -/
def rmul : RVal → RVal → RVal
  | some a, some b => some (a * b)
  | _, _ => none

/-- Division of a vector element by a concrete scalar (`x[i] / n`). -/
def rdiv (a : RVal) (q : ℚ) : RVal :=
  match a with
  | some v => some (v / q)
  | none => none

/-- `pow(y, 2)` with NaN propagation. -/
def rsq : RVal → RVal
  | some a => some (a ^ 2)
  | none => none

/-- The C++ `<` on doubles: every comparison involving NaN is false. -/
def rlt : RVal → RVal → Bool
  | some a, some b => decide (a < b)
  | _, _ => false

/-- `std::min(a, b)`, which returns `(b < a) ? b : a`. -/
def stdmin (a b : RVal) : RVal := if rlt b a then b else a

/-- `std::max(a, b)`, which returns `(a < b) ? b : a`. -/
def stdmax (a b : RVal) : RVal := if rlt a b then b else a

/-- The shared loop shape of `cummaxC`, `cumminC` and `cumprodC`
(`cummax_func.cpp`, `cummin_func.cpp`, `cumprod_func.cpp`): given
`acc = out[i-1]`, each remaining element `x[i]` yields `out[i] = f(out[i-1], x[i])`. -/
def scanGo {α : Type} (f : α → α → α) (acc : α) : List α → List α
  | [] => []
  | v :: vs => f acc v :: scanGo f (f acc v) vs

/-- `cummaxC` (`cummax_func.cpp`): `out[0] = x[0]`, then
`out[i] = std::max(out[i-1], x[i])`.  On an empty vector `out[0] = x[0]`
reads out of bounds. -/
def cummaxC (x : List RVal) : Except Err (List RVal) :=
  match x with
  | [] => .error .oobRead
  | x0 :: rest => .ok (x0 :: scanGo stdmax x0 rest)

/-- `cumminC` (`cummin_func.cpp`): `out[0] = x[0]`, then
`out[i] = std::min(out[i-1], x[i])`. -/
def cumminC (x : List RVal) : Except Err (List RVal) :=
  match x with
  | [] => .error .oobRead
  | x0 :: rest => .ok (x0 :: scanGo stdmin x0 rest)

/-- `cumprodC` (`cumprod_func.cpp`): `out[0] = x[0]`, then
`out[i] = out[i-1] * x[i]`. -/
def cumprodC (x : List RVal) : Except Err (List RVal) :=
  match x with
  | [] => .error .oobRead
  | x0 :: rest => .ok (x0 :: scanGo rmul x0 rest)

/-- Loop body of `cumsumC` (`na_cumsum.cpp`), for indices `1 ≤ i < n`:
if `na_rm` and `x[i]` is `NA`, write `NA_REAL` and signal one warning
(`acc` for the next step is that `NA`); otherwise `out[i] = out[i-1] + x[i]`.
Returns the emitted tail and the number of `warning(...)` calls. -/
def cumsumGo (na_rm : Bool) (acc : RVal) : List RVal → List RVal × Nat
  | [] => ([], 0)
  | v :: vs =>
    if na_rm && v.isNone then
      let r := cumsumGo na_rm none vs
      (none :: r.1, r.2 + 1)
    else
      let r := cumsumGo na_rm (radd acc v) vs
      (radd acc v :: r.1, r.2)

/-- `cumsumC` (`na_cumsum.cpp`): `out[0] = x[0]` unconditionally (an
out-of-bounds read on an empty vector), then the `na_rm`-aware loop.
The second component counts the `warning(...)` calls made. -/
def cumsumC (x : List RVal) (na_rm : Bool) : Except Err (List RVal × Nat) :=
  match x with
  | [] => .error .oobRead
  | x0 :: rest => .ok (x0 :: (cumsumGo na_rm x0 rest).1, (cumsumGo na_rm x0 rest).2)

/-- Adjacent differences `out[i-1] = x[i] - x[i-1]` of `diff_lagOne_func.cpp`. -/
def diffPairs : List RVal → List RVal
  | [] => []
  | [_] => []
  | a :: b :: rest => rsub b a :: diffPairs (b :: rest)

/-- The fixed-lag-1 `diffC` (`diff_lagOne_func.cpp`): no argument check at all;
`NumericVector out(n - 1)` with `n = 0` asks the host for a vector of length
`-1`, which raises a negative-length allocation error. -/
def diffC1 (x : List RVal) : Except Err (List RVal) :=
  match x with
  | [] => .error .negativeLength
  | _ => .ok (diffPairs x)

/-- Output of the parametrized-lag `diffC` loop (`diff_lagN_func.cpp`):
`out[i - lag] = x[i] - x[i - lag]` for `lag ≤ i < n`. -/
def diffLagOut (x : List RVal) (lag : Nat) : List RVal :=
  (List.range (x.length - lag)).map fun j => rsub (x.getD (j + lag) none) (x.getD j none)

/-- The parametrized-lag `diffC` (`diff_lagN_func.cpp`):
`stop` with the invalid-argument message when `lag >= n`, else the
length-`n - lag` difference vector. -/
def diffCN (x : List RVal) (lag : Nat) : Except Err (List RVal) :=
  if x.length ≤ lag then .error .invalidArgument
  else .ok (diffLagOut x lag)

/-- One position of the missing-aware `diffC` loop (`na_diff_func.cpp`),
at output index `j` (source index `i = j + lag`): if `na_rm` and the *later*
element `x[i]` is `NA`, emit `NA_REAL` and one warning; otherwise emit
`x[i] - x[i - lag]` (the earlier element is never tested).  Returns the
emitted value and the number of `warning(...)` calls at this position. -/
def naDiffElem (x : List RVal) (lag : Nat) (na_rm : Bool) (j : Nat) : RVal × Nat :=
  if na_rm && (x.getD (j + lag) none).isNone then (none, 1)
  else (rsub (x.getD (j + lag) none) (x.getD j none), 0)

/-- The missing-aware `diffC` (`na_diff_func.cpp`): `stop` when `lag >= n`,
else the length-`n - lag` output together with the total warning count. -/
def na_diffC (x : List RVal) (lag : Nat) (na_rm : Bool) :
    Except Err (List RVal × Nat) :=
  if x.length ≤ lag then .error .invalidArgument
  else .ok ((List.range (x.length - lag)).map fun j => (naDiffElem x lag na_rm j).1,
            ((List.range (x.length - lag)).map fun j => (naDiffElem x lag na_rm j).2).sum)

/-- The accumulator loop of `rangeC` (`range_func.cpp`):
`omin = std::min(x[i], omin); omax = std::max(x[i], omax)` per element. -/
def rangeLoop : List RVal → RVal → RVal → RVal × RVal
  | [], mn, mx => (mn, mx)
  | v :: vs, mn, mx => rangeLoop vs (stdmin v mn) (stdmax v mx)

/-- `rangeC` (`range_func.cpp`): `double omin = x[0], omax = x[0];` runs
*before* the `n == 0` check, so on an empty vector the function performs an
out-of-bounds read and the `emptyInput` stop is never reached; otherwise the
loop over indices `1..n-1` yields the pair `[omin, omax]`. -/
def rangeC (x : List RVal) : Except Err (List RVal) :=
  match x with
  | [] => .error .oobRead
  | x0 :: rest => .ok [(rangeLoop rest x0 x0).1, (rangeLoop rest x0 x0).2]

/-- Loop of `na_rangeC` (`na_rangefunc.cpp`), over indices `0..n-1`: if
`na_rm` and `x[i]` is `NA`, return the one-element vector `[NA_REAL]`
immediately; otherwise update both accumulators. -/
def naRangeLoop (na_rm : Bool) : List RVal → RVal → RVal → List RVal
  | [], mn, mx => [mn, mx]
  | v :: vs, mn, mx =>
    if na_rm && v.isNone then [none]
    else naRangeLoop na_rm vs (stdmin v mn) (stdmax v mx)

/-- `na_rangeC` (`na_rangefunc.cpp`): seeds both accumulators from `x[0]`
*before* the `n == 0` check (out-of-bounds on an empty vector, with the
`emptyInput` stop unreachable), then scans all of `x` from index 0.  The
function contains no `warning(...)` call, so the warning count is always 0. -/
def na_rangeC (x : List RVal) (na_rm : Bool) : Except Err (List RVal × Nat) :=
  match x with
  | [] => .error .oobRead
  | x0 :: _ => .ok (naRangeLoop na_rm x x0 x0, 0)

/-- `varC` (`var_func.cpp`): `NA_REAL` when `n < 2`; otherwise pass 1
accumulates `mx += x[i] / n`, pass 2 accumulates `out += pow(x[i] - mx, 2)`,
and the result is `out / (n - 1)`. -/
def varC (x : List RVal) : RVal :=
  if x.length < 2 then none
  else
    let nq : ℚ := x.length
    let mx := x.foldl (fun acc v => radd acc (rdiv v nq)) (some 0)
    let acc2 := x.foldl (fun acc v => radd acc (rsq (rsub v mx))) (some 0)
    rdiv acc2 (nq - 1)

/-- `a ≤ b` for two present (non-missing) values, used to state order
relations between kernel outputs. -/
def rleB : RVal → RVal → Bool
  | some a, some b => decide (a ≤ b)
  | _, _ => false

/-! ### Helper lemmas -/

theorem scanGo_length {α : Type} (f : α → α → α) (acc : α) (l : List α) :
    (scanGo f acc l).length = l.length := by
  induction l generalizing acc with
  | nil => rfl
  | cons v vs ih => simp [scanGo, ih]

theorem scanGo_getD {α : Type} (f : α → α → α) (d : α) :
    ∀ (l : List α) (a : α) (i : Nat), i < l.length →
      (a :: scanGo f a l).getD (i + 1) d
        = f ((a :: scanGo f a l).getD i d) (l.getD i d) := by
  intro l
  induction l with
  | nil => intro a i h; simp at h
  | cons v vs ih =>
    intro a i h
    cases i with
    | zero => simp [scanGo]
    | succ j =>
      have hj : j < vs.length := by
        simpa using Nat.lt_of_succ_lt_succ h
      simpa [scanGo] using ih (f a v) j hj

theorem naRangeLoop_of_mem_none :
    ∀ (l : List RVal) (mn mx : RVal), none ∈ l → naRangeLoop true l mn mx = [none] := by
  intro l
  induction l with
  | nil => intro mn mx h; simp at h
  | cons v vs ih =>
    intro mn mx h
    cases v with
    | none => simp [naRangeLoop]
    | some q =>
      have hvs : none ∈ vs := by simpa using h
      simp [naRangeLoop, ih _ _ hvs]

/-! ### Claim C1 -/

/-- C1, counterexample: `cumsumC [1, NA, 3]` with `na_rm = true` does *not*
return `[1, NA, 4]` — the accumulator does not carry the last valid running
total past the skipped position. -/
theorem C1_counterexample :
    Except.map Prod.fst (cumsumC [some 1, none, some 3] true)
      ≠ Except.ok [some 1, none, some 4] := by
  simp [cumsumC, cumsumGo, radd, Except.map]

/-- C1, amended: `cumsumC [1, NA, 3]` with `na_rm = true` returns
`[1, NA, NA]` (with one warning): once `NA` is written to the output, the next
step computes `out[i-1] + x[i]` with `out[i-1] = NA`, so missingness
propagates permanently rather than the accumulator reverting to the last
valid total. -/
theorem C1_amended :
    cumsumC [some 1, none, some 3] true = Except.ok ([some 1, none, none], 1) := by
  simp [cumsumC, cumsumGo, radd]

/-! ### Claim C2 -/

/-- C2: on the empty vector, both range kernels execute
`double omin = x[0], omax = x[0];` *before* the `n == 0` check, so the first
observable event is an out-of-bounds read of element 0, not the `emptyInput`
stop — contradicting the claim that the failure is raised with no element of
the input read. -/
theorem C2_empty_range_reads_before_check :
    rangeC [] = Except.error Err.oobRead ∧
    na_rangeC [] false = Except.error Err.oobRead ∧
    Err.oobRead ≠ Err.emptyInput := by
  exact ⟨rfl, rfl, by decide⟩

/-! ### Claim C4 -/

/-- C4: for every non-empty input (exactly the inputs on which the three
cumulative kernels return successfully), `out[0] = x[0]` and for `1 ≤ i < n`
the left-fold recurrence holds: `cummaxC` satisfies
`out[i] = std::max(out[i-1], x[i])`, `cumminC` the same with `std::min`, and
`cumprodC` the same with `*`. -/
theorem C4_cumulative_recurrence (x ymax ymin yprod : List RVal)
    (hmax : cummaxC x = .ok ymax) (hmin : cumminC x = .ok ymin)
    (hprod : cumprodC x = .ok yprod) :
    (ymax.getD 0 none = x.getD 0 none ∧ ymin.getD 0 none = x.getD 0 none ∧
      yprod.getD 0 none = x.getD 0 none) ∧
    ∀ i, 1 ≤ i → i < x.length →
      ymax.getD i none = stdmax (ymax.getD (i - 1) none) (x.getD i none) ∧
      ymin.getD i none = stdmin (ymin.getD (i - 1) none) (x.getD i none) ∧
      yprod.getD i none = rmul (yprod.getD (i - 1) none) (x.getD i none) := by
  cases x with
  | nil => simp [cummaxC] at hmax
  | cons x0 rest =>
    simp only [cummaxC, cumminC, cumprodC, Except.ok.injEq] at hmax hmin hprod
    subst hmax; subst hmin; subst hprod
    refine ⟨⟨by simp, by simp, by simp⟩, ?_⟩
    intro i h1 h2
    obtain ⟨j, rfl⟩ : ∃ j, i = j + 1 := ⟨i - 1, by omega⟩
    have hj : j < rest.length := by simpa using h2
    have e : j + 1 - 1 = j := by omega
    rw [e]
    refine ⟨?_, ?_, ?_⟩
    · simpa [List.getD_cons_succ] using scanGo_getD stdmax none rest x0 j hj
    · simpa [List.getD_cons_succ] using scanGo_getD stdmin none rest x0 j hj
    · simpa [List.getD_cons_succ] using scanGo_getD rmul none rest x0 j hj

/-- Witness for C4 at `x = [1, 5]`. -/
theorem C4_cumulative_recurrence_witness :
    cummaxC [some 1, some 5] = .ok [some 1, some 5] ∧
    ([some 1, some 5] : List RVal).getD 1 none
      = stdmax (([some 1, some 5] : List RVal).getD 0 none)
          (([some 1, some 5] : List RVal).getD 1 none) ∧
    ([some 1, some 1] : List RVal).getD 1 none
      = stdmin (([some 1, some 1] : List RVal).getD 0 none)
          (([some 1, some 5] : List RVal).getD 1 none) := by
  have hmax : cummaxC [some 1, some 5] = .ok [some 1, some 5] := by
    norm_num [cummaxC, scanGo, stdmax, rlt]
  have hmin : cumminC [some 1, some 5] = .ok [some 1, some 1] := by
    norm_num [cumminC, scanGo, stdmin, rlt]
  have hprod : cumprodC [some 1, some 5] = .ok [some 1, some 5] := by
    norm_num [cumprodC, scanGo, rmul]
  have h := C4_cumulative_recurrence [some 1, some 5] [some 1, some 5]
    [some 1, some 1] [some 1, some 5] hmax hmin hprod
  have h2 := h.2 1 (by norm_num) (by norm_num)
  exact ⟨hmax, h2.1, h2.2.1⟩

/-! ### Claim C6 -/

/-- C6: with the skip-missing policy enabled, a single missing element
anywhere in a non-empty input makes `na_rangeC` short-circuit and return the
one-element missing-sentinel vector `[NA]` (and no warning is signalled). -/
theorem C6_na_range_short_circuit (x : List RVal) (h1 : x ≠ []) (h2 : none ∈ x) :
    na_rangeC x true = Except.ok ([none], 0) := by
  cases x with
  | nil => exact absurd rfl h1
  | cons x0 rest =>
    have h := naRangeLoop_of_mem_none (x0 :: rest) x0 x0 h2
    simp [na_rangeC, h]

/-- Witness for C6 at `x = [5, NA, 9]`. -/
theorem C6_na_range_short_circuit_witness :
    na_rangeC [some 5, none, some 9] true = Except.ok ([none], 0) :=
  C6_na_range_short_circuit [some 5, none, some 9] (by simp) (by simp)

/-! ### Claim C3 -/

theorem diffPairs_length : ∀ l : List RVal, (diffPairs l).length = l.length - 1
  | [] => rfl
  | [_] => rfl
  | a :: b :: rest => by
    simp only [diffPairs, List.length_cons, diffPairs_length (b :: rest)]
    omega

/-- C3, counterexample: the fixed-lag-1 `diffC` performs no argument check, so
on the one-element input `[5]` — where `lag = 1 ≥ length(x) = 1` — it returns
an empty vector successfully instead of failing with the invalid-argument
error. -/
theorem C3_counterexample :
    1 ≥ List.length ([some 5] : List RVal) ∧ diffC1 [some 5] = Except.ok [] := by
  exact ⟨by norm_num, rfl⟩

/-- C3, amended: the parametrized-lag `diffC` and the missing-aware `diffC`
fail with the invalid-argument error exactly when `lag ≥ length(x)` and
otherwise return an output of length `length(x) - lag`; the fixed-lag-1
`diffC` has no check: on inputs of length ≥ 1 (including length 1, where
`lag = 1 ≥ length(x)`) it returns an output of length `length(x) - 1`, and on
the empty input it fails with a negative-length allocation error rather than
an invalid-argument error. -/
theorem C3_amended (x : List RVal) (lag : Nat) (na_rm : Bool) :
    (x.length ≤ lag →
      diffCN x lag = Except.error Err.invalidArgument ∧
      na_diffC x lag na_rm = Except.error Err.invalidArgument) ∧
    (lag < x.length →
      Except.map List.length (diffCN x lag) = Except.ok (x.length - lag) ∧
      Except.map (fun p => p.1.length) (na_diffC x lag na_rm)
        = Except.ok (x.length - lag)) ∧
    (x = [] → diffC1 x = Except.error Err.negativeLength) ∧
    (x ≠ [] → Except.map List.length (diffC1 x) = Except.ok (x.length - 1)) := by
  refine ⟨?_, ?_, ?_, ?_⟩
  · intro h
    constructor
    · simp [diffCN, h]
    · simp [na_diffC, h]
  · intro h
    have h' : ¬ x.length ≤ lag := by omega
    constructor
    · simp [diffCN, h', Except.map, diffLagOut]
    · simp [na_diffC, h', Except.map]
  · intro h
    subst h
    rfl
  · intro h
    cases x with
    | nil => exact absurd rfl h
    | cons x0 rest =>
      simp [diffC1, Except.map, diffPairs_length]

/-- Witness for C3 at concrete inputs exercising all four branches. -/
theorem C3_amended_witness :
    diffCN [some 3] 2 = Except.error Err.invalidArgument ∧
    na_diffC [some 3] 2 false = Except.error Err.invalidArgument ∧
    Except.map List.length (diffCN [some 1, some 2, some 3] 1) = Except.ok 2 ∧
    Except.map (fun p => p.1.length) (na_diffC [some 1, some 2, some 3] 1 true)
      = Except.ok 2 ∧
    diffC1 ([] : List RVal) = Except.error Err.negativeLength ∧
    Except.map List.length (diffC1 [some 1, some 2]) = Except.ok 1 := by
  have ha := (C3_amended [some 3] 2 false).1 (by norm_num)
  have hb := (C3_amended [some 1, some 2, some 3] 1 true).2.1 (by norm_num)
  have hc := (C3_amended ([] : List RVal) 0 false).2.2.1 rfl
  have hd := (C3_amended [some 1, some 2] 1 false).2.2.2 (by simp)
  exact ⟨ha.1, ha.2, hb.1, hb.2, hc, hd⟩

/-! ### Claim C5 -/

theorem foldl_radd_map (F : RVal → RVal) (g : ℚ → ℚ)
    (hF : ∀ q : ℚ, F (some q) = some (g q)) :
    ∀ (l : List ℚ) (a : ℚ),
      (l.map some).foldl (fun acc v => radd acc (F v)) (some a)
        = some (a + (l.map g).sum) := by
  intro l
  induction l with
  | nil => intro a; simp
  | cons q qs ih =>
    intro a
    simp only [List.map_cons, List.foldl_cons, hF]
    have e : radd (some a) (some (g q)) = some (a + g q) := rfl
    rw [e, ih (a + g q)]
    simp [add_assoc]

/-- C5: `varC` returns the `NA_REAL` sentinel on every input of length < 2,
and on every missing-free input of length `n ≥ 2` returns the
Bessel-corrected sample variance `Σ (x[i] - m)² / (n - 1)`, where the mean
`m` is accumulated as the sum of the per-element terms `x[i] / n`. -/
theorem C5_variance (y : List RVal) (x : List ℚ) :
    (y.length < 2 → varC y = none) ∧
    (2 ≤ x.length →
      varC (x.map some)
        = some ((x.map fun v =>
              (v - (x.map fun w => w / (x.length : ℚ)).sum) ^ 2).sum
            / ((x.length : ℚ) - 1))) := by
  constructor
  · intro h
    simp [varC, h]
  · intro h
    have h' : ¬ (x.map some).length < 2 := by
      simp only [List.length_map]
      omega
    simp only [varC, h', if_false, List.length_map]
    rw [foldl_radd_map (fun v => rdiv v (x.length : ℚ))
      (fun q => q / (x.length : ℚ)) (fun q => rfl) x 0]
    rw [foldl_radd_map
      (fun v => rsq (rsub v (some (0 + (x.map fun w => w / (x.length : ℚ)).sum))))
      (fun q => (q - (0 + (x.map fun w => w / (x.length : ℚ)).sum)) ^ 2)
      (fun q => rfl) x 0]
    simp [rdiv]
    omega

/-- Witness for C5: `varC [2, 4] = 2` through the amended formula, and
`varC [5]` is the missing sentinel. -/
theorem C5_variance_witness :
    varC [some 2, some 4] = some 2 ∧ varC [some 5] = none := by
  have h1 := (C5_variance [some 5] [2, 4]).1 (by norm_num)
  have h2 := (C5_variance [some 5] [2, 4]).2 (by norm_num)
  constructor
  · have e : ([some 2, some 4] : List RVal) = ([2, 4] : List ℚ).map some := by
      norm_num
    rw [e, h2]
    norm_num
  · exact h1

/-! ### Claim C7 -/

theorem getD_map_range (f : Nat → RVal) (m j : Nat) (hj : j < m) (d : RVal) :
    ((List.range m).map f).getD j d = f j := by
  rw [List.getD_eq_getElem?_getD, List.getElem?_map, List.getElem?_range hj]
  rfl

/-- C7: in the missing-aware `diffC` with the skip policy enabled, for every
valid output position `j` (pairing earlier index `j` with later index
`j + lag`): if the *later* element is missing the output there is the missing
sentinel and the total warning count is positive, while if the later element
is present the subtraction `x[j+lag] - x[j]` is emitted as computed — the
earlier element is never tested, and that position signals no warning. -/
theorem C7_na_diff_asymmetry (x : List RVal) (lag j : Nat) (out : List RVal)
    (w : Nat) (hj : j < x.length - lag)
    (hrun : na_diffC x lag true = Except.ok (out, w)) :
    (x.getD (j + lag) none = none → out.getD j none = none ∧ 1 ≤ w) ∧
    (x.getD (j + lag) none ≠ none →
      out.getD j none = rsub (x.getD (j + lag) none) (x.getD j none) ∧
      (naDiffElem x lag true j).2 = 0) := by
  have hlag : ¬ x.length ≤ lag := by omega
  rw [na_diffC, if_neg hlag] at hrun
  have hout : out = (List.range (x.length - lag)).map fun k => (naDiffElem x lag true k).1 :=
    (congrArg Prod.fst (Except.ok.inj hrun)).symm
  have hw : w = ((List.range (x.length - lag)).map fun k => (naDiffElem x lag true k).2).sum :=
    (congrArg Prod.snd (Except.ok.inj hrun)).symm
  have hget : out.getD j none = (naDiffElem x lag true j).1 := by
    rw [hout]
    exact getD_map_range _ _ j hj none
  constructor
  · intro hnone
    have hcond : (true && (x.getD (j + lag) none).isNone) = true := by
      rw [hnone]
      rfl
    have helem : naDiffElem x lag true j = (none, 1) := by
      unfold naDiffElem
      rw [if_pos hcond]
    refine ⟨by rw [hget, helem], ?_⟩
    rw [hw]
    refine List.le_sum_of_mem ?_
    exact List.mem_map.mpr ⟨j, List.mem_range.mpr hj, by rw [helem]⟩
  · intro hsome
    have hcond : ¬ ((true && (x.getD (j + lag) none).isNone) = true) := by
      intro hc
      rw [Bool.true_and] at hc
      exact hsome (Option.isNone_iff_eq_none.mp hc)
    have helem : naDiffElem x lag true j
        = (rsub (x.getD (j + lag) none) (x.getD j none), 0) := by
      unfold naDiffElem
      rw [if_neg hcond]
    exact ⟨by rw [hget, helem], by rw [helem]⟩

/-- Witness for C7 at `x = [1, NA, 5]`, `lag = 1`: position 0 has the later
element missing (output missing, warning signalled); position 1 has only the
earlier element missing (the subtraction is still emitted, no warning). -/
theorem C7_na_diff_asymmetry_witness :
    (([none, none] : List RVal).getD 0 none = none ∧ 1 ≤ 1) ∧
    ([none, none] : List RVal).getD 1 none
      = rsub (([some 1, none, some 5] : List RVal).getD 2 none)
          (([some 1, none, some 5] : List RVal).getD 1 none) ∧
    (naDiffElem [some 1, none, some 5] 1 true 1).2 = 0 := by
  have hrun : na_diffC [some 1, none, some 5] 1 true = Except.ok ([none, none], 1) := by
    norm_num [na_diffC, naDiffElem, rsub, List.range, List.range.loop, List.getD,
      Option.isNone]
  have h0 := (C7_na_diff_asymmetry [some 1, none, some 5] 1 0 [none, none] 1
    (by norm_num) hrun).1 rfl
  have h1 := (C7_na_diff_asymmetry [some 1, none, some 5] 1 1 [none, none] 1
    (by norm_num) hrun).2 (by simp)
  exact ⟨h0, h1⟩

/-! ### Claim C8 -/

theorem stdmin_some_some (a b : ℚ) : stdmin (some a) (some b) = some (min a b) := by
  by_cases h : b < a
  · simp [stdmin, rlt, h, min_eq_right h.le]
  · simp [stdmin, rlt, h, min_eq_left (not_lt.mp h)]

theorem stdmax_some_some (a b : ℚ) : stdmax (some a) (some b) = some (max a b) := by
  by_cases h : a < b
  · simp [stdmax, rlt, h, max_eq_right h.le]
  · simp [stdmax, rlt, h, max_eq_left (not_lt.mp h)]

theorem rangeLoop_map_some :
    ∀ (l : List ℚ) (mn mx : ℚ),
      rangeLoop (l.map some) (some mn) (some mx)
        = (some (l.foldl min mn), some (l.foldl max mx)) := by
  intro l
  induction l with
  | nil => intro mn mx; rfl
  | cons q qs ih =>
    intro mn mx
    simp only [List.map_cons, rangeLoop, stdmin_some_some, stdmax_some_some,
      List.foldl_cons]
    rw [min_comm q mn, max_comm q mx]
    exact ih (min mn q) (max mx q)

theorem foldl_min_le_init : ∀ (l : List ℚ) (a : ℚ), l.foldl min a ≤ a := by
  intro l
  induction l with
  | nil => intro a; exact le_refl a
  | cons v vs ih =>
    intro a
    exact le_trans (ih (min a v)) (min_le_left a v)

theorem foldl_min_le_mem : ∀ (l : List ℚ) (a b : ℚ), b ∈ l → l.foldl min a ≤ b := by
  intro l
  induction l with
  | nil => intro a b h; simp at h
  | cons v vs ih =>
    intro a b h
    rcases List.mem_cons.mp h with rfl | h'
    · exact le_trans (foldl_min_le_init vs (min a b)) (min_le_right a b)
    · exact ih (min a v) b h'

theorem foldl_min_mem : ∀ (l : List ℚ) (a : ℚ), l.foldl min a = a ∨ l.foldl min a ∈ l := by
  intro l
  induction l with
  | nil => intro a; exact Or.inl rfl
  | cons v vs ih =>
    intro a
    rcases ih (min a v) with h | h
    · rcases min_choice a v with hm | hm
      · exact Or.inl (by rw [List.foldl_cons, h, hm])
      · exact Or.inr (by rw [List.foldl_cons, h, hm]; exact List.mem_cons_self v vs)
    · exact Or.inr (List.mem_cons_of_mem v h)

theorem le_foldl_max_init : ∀ (l : List ℚ) (a : ℚ), a ≤ l.foldl max a := by
  intro l
  induction l with
  | nil => intro a; exact le_refl a
  | cons v vs ih =>
    intro a
    exact le_trans (le_max_left a v) (ih (max a v))

theorem le_foldl_max_mem : ∀ (l : List ℚ) (a b : ℚ), b ∈ l → b ≤ l.foldl max a := by
  intro l
  induction l with
  | nil => intro a b h; simp at h
  | cons v vs ih =>
    intro a b h
    rcases List.mem_cons.mp h with rfl | h'
    · exact le_trans (le_max_right a b) (le_foldl_max_init vs (max a b))
    · exact ih (max a v) b h'

theorem foldl_max_mem : ∀ (l : List ℚ) (a : ℚ), l.foldl max a = a ∨ l.foldl max a ∈ l := by
  intro l
  induction l with
  | nil => intro a; exact Or.inl rfl
  | cons v vs ih =>
    intro a
    rcases ih (max a v) with h | h
    · rcases max_choice a v with hm | hm
      · exact Or.inl (by rw [List.foldl_cons, h, hm])
      · exact Or.inr (by rw [List.foldl_cons, h, hm]; exact List.mem_cons_self v vs)
    · exact Or.inr (List.mem_cons_of_mem v h)

/-- C8: on every non-empty missing-free input, `rangeC` returns the length-2
vector whose first entry is the minimum of all elements and whose second entry
is the maximum of all elements, in that order. -/
theorem C8_range_min_max (x0 : ℚ) (rest : List ℚ) :
    rangeC ((x0 :: rest).map some)
      = Except.ok [some (rest.foldl min x0), some (rest.foldl max x0)] ∧
    (rest.foldl min x0 = x0 ∨ rest.foldl min x0 ∈ rest) ∧
    (rest.foldl max x0 = x0 ∨ rest.foldl max x0 ∈ rest) ∧
    ∀ a, (a = x0 ∨ a ∈ rest) → rest.foldl min x0 ≤ a ∧ a ≤ rest.foldl max x0 := by
  refine ⟨?_, foldl_min_mem rest x0, foldl_max_mem rest x0, ?_⟩
  · simp only [List.map_cons, rangeC, rangeLoop_map_some]
  · intro a ha
    rcases ha with rfl | ha
    · exact ⟨foldl_min_le_init rest a, le_foldl_max_init rest a⟩
    · exact ⟨foldl_min_le_mem rest x0 a ha, le_foldl_max_mem rest x0 a ha⟩

/-- Witness for C8 at `x = [5, 1, 9, 3]` (the spec's own example):
`rangeC` returns `(1, 9)` and `1 ≤ 3 ≤ 9`. -/
theorem C8_range_min_max_witness :
    rangeC [some 5, some 1, some 9, some 3] = Except.ok [some 1, some 9] ∧
    ((1 : ℚ) ≤ 3 ∧ (3 : ℚ) ≤ 9) := by
  have h := C8_range_min_max 5 [1, 9, 3]
  have hmn : ([1, 9, 3] : List ℚ).foldl min 5 = 1 := by norm_num [List.foldl]
  have hmx : ([1, 9, 3] : List ℚ).foldl max 5 = 9 := by norm_num [List.foldl]
  have hb := h.2.2.2 3 (Or.inr (by norm_num))
  rw [hmn, hmx] at hb
  have h1 := h.1
  rw [hmn, hmx] at h1
  refine ⟨?_, hb⟩
  simpa using h1

/-! ### Claim C9 -/

/-- The ordinary-arithmetic cumulative sum: the `else` branch of
`na_cumsum.cpp` applied at every position (`out[0] = x[0]`,
`out[i] = out[i-1] + x[i]`), with no missing-value test, no sentinel
substitution and no warning. -/
def cumsumPlain (x : List RVal) : Except Err (List RVal) :=
  match x with
  | [] => .error .oobRead
  | x0 :: rest => .ok (x0 :: scanGo radd x0 rest)

theorem cumsumGo_false :
    ∀ (l : List RVal) (acc : RVal), cumsumGo false acc l = (scanGo radd acc l, 0) := by
  intro l
  induction l with
  | nil => intro acc; rfl
  | cons v vs ih =>
    intro acc
    simp [cumsumGo, scanGo, ih (radd acc v)]

theorem naDiffElem_false (x : List RVal) (lag j : Nat) :
    naDiffElem x lag false j = (rsub (x.getD (j + lag) none) (x.getD j none), 0) := by
  unfold naDiffElem
  rw [if_neg]
  simp

theorem stdmin_self (a : RVal) : stdmin a a = a := by
  simp [stdmin]

theorem stdmax_self (a : RVal) : stdmax a a = a := by
  simp [stdmax]

theorem naRangeLoop_false :
    ∀ (l : List RVal) (mn mx : RVal),
      naRangeLoop false l mn mx = [(rangeLoop l mn mx).1, (rangeLoop l mn mx).2] := by
  intro l
  induction l with
  | nil => intro mn mx; rfl
  | cons v vs ih =>
    intro mn mx
    simp only [naRangeLoop, rangeLoop, Bool.false_and, Bool.false_eq_true, if_false]
    exact ih (stdmin v mn) (stdmax v mx)

theorem cumsumGo_warn_pos_iff :
    ∀ (l : List RVal) (acc : RVal) (na_rm : Bool),
      0 < (cumsumGo na_rm acc l).2 ↔ na_rm = true ∧ none ∈ l := by
  intro l
  induction l with
  | nil => intro acc na_rm; simp [cumsumGo]
  | cons v vs ih =>
    intro acc na_rm
    by_cases hc : (na_rm && v.isNone) = true
    · have hc2 := hc
      rw [Bool.and_eq_true] at hc2
      obtain ⟨hna, hv⟩ := hc2
      have hv' : v = none := Option.isNone_iff_eq_none.mp hv
      subst hv'
      simp [cumsumGo, hc, hna]
    · have hc' : (na_rm && v.isNone) = false := by
        cases hb : (na_rm && v.isNone) with
        | false => rfl
        | true => exact absurd hb hc
      simp only [cumsumGo, hc', Bool.false_eq_true, if_false]
      rw [ih (radd acc v) na_rm]
      cases na_rm with
      | false => simp
      | true =>
        have hv : v ≠ none := by
          intro hv
          subst hv
          simp at hc
        simp [List.mem_cons, hv, eq_comm]

/-- C9, counterexample: `na_rangeC` contains no warning call at all, so with
skip enabled and a missing value at a checked position (index 1 here, and
every index of `na_rangeC` is checked) the warning count is still 0 —
falsifying the claim that the warning is raised whenever skip is enabled and
a missing value occurs at a checked position. -/
theorem C9_counterexample :
    na_rangeC [some 1, none] true = Except.ok ([none], 0) ∧
    ([some 1, none] : List RVal).getD 1 none = none := by
  constructor
  · simp [na_rangeC, naRangeLoop]
  · rfl

/-- C9, amended: with `skip_missing = false` each missing-aware kernel takes
the ordinary arithmetic branch at every element — `cumsumC` agrees with the
plain cumulative sum, the missing-aware `diffC` agrees with the plain
parametrized-lag `diffC`, and `na_rangeC` agrees with `rangeC` — each with a
zero warning count.  For the two warning-capable kernels (`cumsumC` and the
missing-aware `diffC`) the warning count is positive iff `skip_missing` is
enabled and a missing value occurs at a checked position (an index ≥ 1 for
`cumsumC`, a later index `j + lag` for `diffC`); `na_rangeC` never signals a
warning at all, even when it short-circuits on a missing value. -/
theorem C9_amended (x : List RVal) (lag : Nat) (na_rm : Bool) :
    cumsumC x false = Except.map (fun y => (y, 0)) (cumsumPlain x) ∧
    na_diffC x lag false = Except.map (fun y => (y, 0)) (diffCN x lag) ∧
    na_rangeC x false = Except.map (fun y => (y, 0)) (rangeC x) ∧
    (∀ out w, cumsumC x na_rm = Except.ok (out, w) →
      (0 < w ↔ na_rm = true ∧ none ∈ x.tail)) ∧
    (∀ out w, na_diffC x lag na_rm = Except.ok (out, w) →
      (0 < w ↔ na_rm = true ∧
        ∃ j, j < x.length - lag ∧ x.getD (j + lag) none = none)) ∧
    (∀ out w, na_rangeC x na_rm = Except.ok (out, w) → w = 0) := by
  refine ⟨?_, ?_, ?_, ?_, ?_, ?_⟩
  · cases x with
    | nil => rfl
    | cons x0 rest => simp [cumsumC, cumsumPlain, cumsumGo_false, Except.map]
  · by_cases h : x.length ≤ lag
    · simp [na_diffC, diffCN, h, Except.map]
    · simp [na_diffC, diffCN, h, Except.map, diffLagOut, naDiffElem_false]
  · cases x with
    | nil => rfl
    | cons x0 rest =>
      simp only [na_rangeC, rangeC, Except.map, naRangeLoop_false, rangeLoop,
        stdmin_self, stdmax_self]
  · intro out w hrun
    cases x with
    | nil => simp [cumsumC] at hrun
    | cons x0 rest =>
      have hw : w = (cumsumGo na_rm x0 rest).2 :=
        (congrArg Prod.snd (Except.ok.inj hrun)).symm
      rw [hw, List.tail_cons]
      exact cumsumGo_warn_pos_iff rest x0 na_rm
  · intro out w hrun
    by_cases h : x.length ≤ lag
    · rw [na_diffC, if_pos h] at hrun
      exact absurd hrun (by simp)
    · rw [na_diffC, if_neg h] at hrun
      have hw : w = ((List.range (x.length - lag)).map
          fun j => (naDiffElem x lag na_rm j).2).sum :=
        (congrArg Prod.snd (Except.ok.inj hrun)).symm
      subst hw
      rw [Nat.pos_iff_ne_zero, Ne, List.sum_eq_zero_iff]
      push_neg
      constructor
      · rintro ⟨a, ha, hne⟩
        obtain ⟨j, hj, rfl⟩ := List.mem_map.mp ha
        rw [List.mem_range] at hj
        by_cases hc : (na_rm && (x.getD (j + lag) none).isNone) = true
        · have hc2 := hc
          rw [Bool.and_eq_true] at hc2
          exact ⟨hc2.1, j, hj, Option.isNone_iff_eq_none.mp hc2.2⟩
        · exfalso
          apply hne
          unfold naDiffElem
          rw [if_neg hc]
      · rintro ⟨hna, j, hj, hnone⟩
        refine ⟨1, ?_, one_ne_zero⟩
        refine List.mem_map.mpr ⟨j, List.mem_range.mpr hj, ?_⟩
        have hc : (na_rm && (x.getD (j + lag) none).isNone) = true := by
          rw [hna, hnone]
          rfl
        unfold naDiffElem
        rw [if_pos hc]
  · intro out w hrun
    cases x with
    | nil => simp [na_rangeC] at hrun
    | cons x0 rest =>
      exact (congrArg Prod.snd (Except.ok.inj hrun)).symm

/-- Witness for C9 at `x = [1, NA]`, `lag = 1`, skip enabled. -/
theorem C9_amended_witness :
    cumsumC [some 1, none] false
      = Except.map (fun y => (y, 0)) (cumsumPlain [some 1, none]) ∧
    (0 < 1 ↔ true = true ∧ none ∈ ([none] : List RVal)) ∧
    (0 < 1 ↔ true = true ∧
      ∃ j, j < List.length ([some 1, none] : List RVal) - 1 ∧
        ([some 1, none] : List RVal).getD (j + 1) none = none) ∧
    (0 : Nat) = 0 := by
  have h := C9_amended [some 1, none] 1 true
  have hsum : cumsumC [some 1, none] true = Except.ok ([some 1, none], 1) := by
    simp [cumsumC, cumsumGo, radd]
  have hdiff : na_diffC [some 1, none] 1 true = Except.ok ([none], 1) := by
    norm_num [na_diffC, naDiffElem, rsub, List.range, List.range.loop, List.getD,
      Option.isNone]
  have hrange : na_rangeC [some 1, none] true = Except.ok ([none], 0) := by
    simp [na_rangeC, naRangeLoop]
  exact ⟨h.1, h.2.2.2.1 [some 1, none] 1 hsum, h.2.2.2.2.1 [none] 1 hdiff,
    h.2.2.2.2.2 [none] 0 hrange⟩

/-! ### Claim C10 -/

theorem scanGo_map_some (f : RVal → RVal → RVal) (g : ℚ → ℚ → ℚ)
    (hfg : ∀ a b : ℚ, f (some a) (some b) = some (g a b)) :
    ∀ (l : List ℚ) (a : ℚ), scanGo f (some a) (l.map some) = (scanGo g a l).map some := by
  intro l
  induction l with
  | nil => intro a; rfl
  | cons v vs ih =>
    intro a
    simp only [List.map_cons, scanGo, hfg]
    rw [ih (g a v)]

theorem getD_map_some (l : List ℚ) :
    ∀ (i : Nat), i < l.length → (l.map some).getD i none = some (l.getD i 0) := by
  induction l with
  | nil => intro i h; simp at h
  | cons v vs ih =>
    intro i h
    cases i with
    | zero => rfl
    | succ j =>
      have hj : j < vs.length := by simpa using Nat.lt_of_succ_lt_succ h
      simpa [List.getD_cons_succ] using ih j hj

/-- C10: on every non-empty missing-free input, the `cummaxC` output is
monotonically non-decreasing and the `cumminC` output is monotonically
non-increasing: at every index `i ≥ 1`, `out[i-1] ≤ out[i]` for `cummaxC` and
`out[i] ≤ out[i-1]` for `cumminC` (as present, non-missing values). -/
theorem C10_cum_monotone (q : List ℚ) (i : Nat) (h1 : 1 ≤ i) (h2 : i < q.length)
    (ymax ymin : List RVal)
    (hmax : cummaxC (q.map some) = Except.ok ymax)
    (hmin : cumminC (q.map some) = Except.ok ymin) :
    rleB (ymax.getD (i - 1) none) (ymax.getD i none) = true ∧
    rleB (ymin.getD i none) (ymin.getD (i - 1) none) = true := by
  cases q with
  | nil => simp [cummaxC] at hmax
  | cons q0 qs =>
    rw [List.map_cons, cummaxC, scanGo_map_some stdmax max stdmax_some_some] at hmax
    rw [List.map_cons, cumminC, scanGo_map_some stdmin min stdmin_some_some] at hmin
    have hymax : ymax = ((q0 :: scanGo max q0 qs).map some) :=
      (Except.ok.inj hmax).symm
    have hymin : ymin = ((q0 :: scanGo min q0 qs).map some) :=
      (Except.ok.inj hmin).symm
    obtain ⟨j, rfl⟩ : ∃ j, i = j + 1 := ⟨i - 1, by omega⟩
    have hj : j < qs.length := by simpa using h2
    have hlenmax : j + 1 < (q0 :: scanGo max q0 qs).length := by
      simp [scanGo_length]
      omega
    have hlenmin : j + 1 < (q0 :: scanGo min q0 qs).length := by
      simp [scanGo_length]
      omega
    have e : j + 1 - 1 = j := by omega
    rw [hymax, hymin, e,
      getD_map_some _ (j + 1) hlenmax, getD_map_some _ j (by omega),
      getD_map_some _ (j + 1) hlenmin, getD_map_some _ j (by omega)]
    have hrecmax := scanGo_getD max 0 qs q0 j hj
    have hrecmin := scanGo_getD min 0 qs q0 j hj
    rw [hrecmax, hrecmin]
    constructor
    · simp [rleB, le_max_left]
    · simp [rleB, min_le_left]

/-- Witness for C10 at `q = [1, 5]`, `i = 1`. -/
theorem C10_cum_monotone_witness :
    rleB (some 1) (some 5) = true ∧ rleB (some 1) (some 1) = true := by
  have hmax : cummaxC (([1, 5] : List ℚ).map some) = Except.ok [some 1, some 5] := by
    norm_num [cummaxC, scanGo, stdmax, rlt]
  have hmin : cumminC (([1, 5] : List ℚ).map some) = Except.ok [some 1, some 1] := by
    norm_num [cumminC, scanGo, stdmin, rlt]
  have h := C10_cum_monotone [1, 5] 1 (by norm_num) (by norm_num)
    [some 1, some 5] [some 1, some 1] hmax hmin
  exact h
